import Mathlib

/-!
Verification of the websim-socket repository: a shallow embedding of the
MergeEngine (src/shared/deep-merge.ts), the Relay (the PartyKit server),
and the Replica (the WebsimSocket client in src/shared/protocol.ts),
together with theorems settling the specification claims.

JavaScript objects (`Record<string, any>`) are modelled as association
lists `List (String × JVal)` whose operations mirror the JavaScript
semantics: property read returns the (unique) entry, property write
replaces an existing entry in place or appends a new one, and `delete`
removes the entry.  Genuine JavaScript objects never carry duplicate
keys; where a claim's truth depends on that, it appears as a
`keysNodup` hypothesis.
-/

/-- A JavaScript/JSON value as it appears in the synchronized documents:
`null`, a scalar (boolean, number, string), an array (opaque to the merge
engine), or an object. -/
inductive JVal : Type where
  | null : JVal
  | bool (b : Bool) : JVal
  | num (n : Int) : JVal
  | str (s : String) : JVal
  | arr (elems : List JVal) : JVal
  | obj (fields : List (String × JVal)) : JVal

/-- Property read on a JavaScript object: the value of the first entry with
the given key, if any (`undefined` is `none`). -/
def getKey {κ α : Type} [DecidableEq κ] : List (κ × α) → κ → Option α
  | [], _ => none
  | (k1, v) :: t, k => if k1 = k then some v else getKey t k

/-- Property write on a JavaScript object: replace the existing entry in
place, or append a new entry at the end. -/
def setKey {κ α : Type} [DecidableEq κ] : List (κ × α) → κ → α → List (κ × α)
  | [], k, v => [(k, v)]
  | (k1, v1) :: t, k, v => if k1 = k then (k, v) :: t else (k1, v1) :: setKey t k v

/-- The JavaScript `delete` operator on an object: remove the entry with the
given key. -/
def eraseKey {κ α : Type} [DecidableEq κ] : List (κ × α) → κ → List (κ × α)
  | [], _ => []
  | (k1, v1) :: t, k => if k1 = k then eraseKey t k else (k1, v1) :: eraseKey t k

/-- Whether an association list has an entry with the given key. -/
def hasKey {κ α : Type} [DecidableEq κ] (l : List (κ × α)) (k : κ) : Bool :=
  (getKey l k).isSome

/-- The keys of the association list are pairwise distinct, as they always
are for a genuine JavaScript object. -/
def keysNodup {κ α : Type} [DecidableEq κ] : List (κ × α) → Bool
  | [] => true
  | (k, _) :: t => !(hasKey t k) && keysNodup t

/-- `deepMerge` from src/shared/deep-merge.ts.  It walks the keys of
`source` in order, acting on a running copy of `target`: a `null` source
value deletes the key, a source object merged onto an existing object value
recurses, and anything else (scalars, arrays, objects landing on
non-objects or absent keys) is stored verbatim. -/
def deepMerge : List (String × JVal) → List (String × JVal) → List (String × JVal)
  | target, [] => target
  | target, (k, v) :: rest =>
    match v with
    | JVal.null => deepMerge (eraseKey target k) rest
    | JVal.obj sv =>
      match getKey target k with
      | some (JVal.obj tv) => deepMerge (setKey target k (JVal.obj (deepMerge tv sv))) rest
      | _ => deepMerge (setKey target k (JVal.obj sv)) rest
    | v => deepMerge (setKey target k v) rest
termination_by _ s => sizeOf s

/-- Reference merge of spec section 4.1, following the spec's words: for
each key in `source`, a delete sentinel removes the key from the result;
else, if both the existing value at that key in `target` and the new value
are non-sentinel mappings, they are merged recursively; else the new value
is stored verbatim.  The first argument is the `target` consulted for the
existing value, the second the evolving result. -/
def specMergeGo : List (String × JVal) → List (String × JVal) → List (String × JVal) →
    List (String × JVal)
  | _, result, [] => result
  | target, result, (k, v) :: rest =>
    match v with
    | JVal.null => specMergeGo target (eraseKey result k) rest
    | JVal.obj sv =>
      match getKey target k with
      | some (JVal.obj tv) =>
        specMergeGo target (setKey result k (JVal.obj (specMergeGo tv tv sv))) rest
      | _ => specMergeGo target (setKey result k (JVal.obj sv)) rest
    | v => specMergeGo target (setKey result k v) rest
termination_by _ _ s => sizeOf s

/-- Reference merge of spec section 4.1 applied to a target and a source. -/
def specMerge (target source : List (String × JVal)) : List (String × JVal) :=
  specMergeGo target target source

mutual
/-- A value is well formed when every object inside it has pairwise
distinct keys — true of every value decoded from JSON. -/
def JVal.wf : JVal → Bool
  | JVal.obj fields => keysNodup fields && wfFields fields
  | _ => true

/-- All values of an association list are well formed. -/
def wfFields : List (String × JVal) → Bool
  | [] => true
  | (_, v) :: t => JVal.wf v && wfFields t
end

/-- A well-formed JavaScript record: distinct keys, well-formed values. -/
def recWF (l : List (String × JVal)) : Bool :=
  keysNodup l && wfFields l

/-- Peer metadata held by the Relay for each connection (src/server). -/
structure PeerInfo where
  username : String
  avatarUrl : String
deriving DecidableEq, Repr

/-- The payload of a `broadcast-event` message, following the shape declared
in src/shared/protocol.ts: a `type` string, an optional boolean `echo`
flag, and arbitrary further fields (which may well include keys named
`clientId` or `username`). -/
structure ClientEvent where
  type : String
  echo : Option Bool
  rest : List (String × JVal)

/-- Client-to-server messages of src/shared/protocol.ts. -/
inductive ClientToServerMessage : Type where
  | updatePresence (presence : List (String × JVal))
  | updateRoomState (roomState : List (String × JVal))
  | requestPresenceUpdate (targetClientId : String) (update : List (String × JVal))
  | broadcastEvent (event : ClientEvent)

/-- Server-to-client messages of src/shared/protocol.ts. -/
inductive ServerToClientMessage : Type where
  | init (clientId : String) (roomState : List (String × JVal))
      (presence : List (String × List (String × JVal)))
      (peers : List (String × PeerInfo))
  | presenceUpdated (clientId : String) (presence : List (String × JVal))
  | roomStateUpdated (roomState : List (String × JVal))
  | presenceUpdateRequest (update : List (String × JVal)) (fromClientId : String)
  | peerJoined (clientId : String) (username : String) (avatarUrl : String)
  | peerLeft (clientId : String)
  | event (data : List (String × JVal))

/-- The three authoritative structures owned by the Relay (the private
fields of the WebsimServer class). -/
structure ServerState where
  peers : List (String × PeerInfo)
  presence : List (String × List (String × JVal))
  roomState : List (String × JVal)

/-- The Relay's `broadcast` helper: send `msg` to every currently connected
id not in `exclude` (the transport's connection list is passed in as
`conns`).  Returns the (recipient, message) pairs in send order. -/
def broadcastTo (conns : List String) (msg : ServerToClientMessage)
    (exclude : List String) : List (String × ServerToClientMessage) :=
  (conns.filter (fun c => decide (c ∉ exclude))).map (fun c => (c, msg))

/-- JavaScript `x || d` for a nullable string: the fallback is used when the
value is absent or the empty string. -/
def orFallback (o : Option String) (d : String) : String :=
  match o with
  | some s => if s = "" then d else s
  | none => d

/-- The outgoing event data built by the `broadcast-event` case of
`WebsimServer.onMessage`: the object literal starts from `type`, the
sender's connection id and the sender's registered username, then spreads
the sender's remaining event fields over it, later keys overwriting. -/
def relayEventData (senderId : String) (senderInfo : PeerInfo) (e : ClientEvent) :
    List (String × JVal) :=
  e.rest.foldl (fun acc kv => setKey acc kv.1 kv.2)
    [("type", JVal.str e.type), ("clientId", JVal.str senderId),
     ("username", JVal.str senderInfo.username)]

/-- `WebsimServer.onConnect`: derive username/avatar from the connection
query (with fallbacks), register the peer, initialize empty presence, send
`init` to the new connection, then broadcast `peer-joined` and an empty
`presence-updated` to everyone else.  `conns` is the transport's connection
list at that moment, which already contains `connId`. -/
def WebsimServer.onConnect (conns : List String) (st : ServerState) (connId : String)
    (qUsername qAvatarUrl : Option String) :
    ServerState × List (String × ServerToClientMessage) :=
  let username := orFallback qUsername ("Guest-" ++ connId.take 4)
  let avatarUrl :=
    orFallback qAvatarUrl ("https://api.dicebear.com/7.x/pixel-art/svg?seed=" ++ connId)
  let peers2 := setKey st.peers connId { username := username, avatarUrl := avatarUrl }
  let presence2 := setKey st.presence connId []
  ({ st with peers := peers2, presence := presence2 },
    [(connId, ServerToClientMessage.init connId st.roomState presence2 peers2)] ++
      broadcastTo conns (ServerToClientMessage.peerJoined connId username avatarUrl)
        [connId] ++
      broadcastTo conns (ServerToClientMessage.presenceUpdated connId []) [connId])

/-- `WebsimServer.onMessage` for a successfully parsed message: drop it when
the sender has no peer entry, otherwise dispatch on the message type
exactly as the switch in src/server does. -/
def WebsimServer.onMessage (conns : List String) (st : ServerState) (senderId : String)
    (msg : ClientToServerMessage) : ServerState × List (String × ServerToClientMessage) :=
  match getKey st.peers senderId with
  | none => (st, [])
  | some senderInfo =>
    match msg with
    | ClientToServerMessage.updatePresence p =>
      let merged := deepMerge ((getKey st.presence senderId).getD []) p
      ({ st with presence := setKey st.presence senderId merged },
        broadcastTo conns (ServerToClientMessage.presenceUpdated senderId merged) [])
    | ClientToServerMessage.updateRoomState rs =>
      let merged := deepMerge st.roomState rs
      ({ st with roomState := merged },
        broadcastTo conns (ServerToClientMessage.roomStateUpdated merged) [])
    | ClientToServerMessage.requestPresenceUpdate target upd =>
      if target ∈ conns then
        (st, [(target, ServerToClientMessage.presenceUpdateRequest upd senderId)])
      else (st, [])
    | ClientToServerMessage.broadcastEvent e =>
      let echo := e.echo.getD true
      let exclude := if echo then [] else [senderId]
      (st, broadcastTo conns
        (ServerToClientMessage.event (relayEventData senderId senderInfo e)) exclude)

/-- `WebsimServer.onClose`: drop unknown connections, otherwise remove the
peer entry and the presence entry and broadcast `peer-left` to the
remaining connections. -/
def WebsimServer.onClose (conns : List String) (st : ServerState) (connId : String) :
    ServerState × List (String × ServerToClientMessage) :=
  match getKey st.peers connId with
  | none => (st, [])
  | some _ =>
    ({ st with peers := eraseKey st.peers connId, presence := eraseKey st.presence connId },
      broadcastTo conns (ServerToClientMessage.peerLeft connId) [])

/-- The Replica's local mirror: the private fields of the WebsimSocket
class, plus whether the pending `initialize()` promise has been resolved. -/
structure ReplicaState where
  presence : List (String × List (String × JVal))
  roomState : List (String × JVal)
  peers : List (String × PeerInfo)
  clientId : String
  initialized : Bool

/-- A freshly constructed WebsimSocket: empty mirrors, empty client id, and
a pending `initialize()` call. -/
def replicaInit : ReplicaState :=
  { presence := [], roomState := [], peers := [], clientId := "", initialized := false }

/-- One observable callback invocation performed by the Replica while
handling an inbound message: a notification of the presence subscribers,
of the room-state subscribers, of the presence-update-request subscribers,
or of the single generic `onmessage` handler. -/
inductive CallbackCall : Type where
  | presenceSubscribers (presence : List (String × List (String × JVal)))
  | roomStateSubscribers (roomState : List (String × JVal))
  | presenceUpdateRequestSubscribers (update : List (String × JVal)) (fromClientId : String)
  | genericHandler (data : List (String × JVal))

/-- `WebsimSocket.handleMessage`: dispatch one inbound server message,
mutating the mirror and recording the callback notifications in order.
The switch has no `init` case, so an `init` frame is ignored here. -/
def WebsimSocket.handleMessage (st : ReplicaState) (msg : ServerToClientMessage) :
    ReplicaState × List CallbackCall :=
  match msg with
  | ServerToClientMessage.presenceUpdated cid p =>
    let presence2 := setKey st.presence cid p
    ({ st with presence := presence2 }, [CallbackCall.presenceSubscribers presence2])
  | ServerToClientMessage.roomStateUpdated rs =>
    ({ st with roomState := rs }, [CallbackCall.roomStateSubscribers rs])
  | ServerToClientMessage.presenceUpdateRequest upd fromId =>
    (st, [CallbackCall.presenceUpdateRequestSubscribers upd fromId])
  | ServerToClientMessage.peerJoined cid u a =>
    ({ st with peers := setKey st.peers cid { username := u, avatarUrl := a } },
      [CallbackCall.genericHandler
        [("type", JVal.str "connected"), ("clientId", JVal.str cid),
         ("username", JVal.str u)]])
  | ServerToClientMessage.peerLeft cid =>
    let uname := match getKey st.peers cid with
      | some info => info.username
      | none => ""
    let st2 := { st with peers := eraseKey st.peers cid,
                         presence := eraseKey st.presence cid }
    (st2, [CallbackCall.genericHandler
             [("type", JVal.str "disconnected"), ("clientId", JVal.str cid),
              ("username", JVal.str uname)],
           CallbackCall.presenceSubscribers st2.presence])
  | ServerToClientMessage.event d => (st, [CallbackCall.genericHandler d])
  | ServerToClientMessage.init _ _ _ _ => (st, [])

/-- The message listener installed by `WebsimSocket.initialize` on its
socket: an unparseable frame (`none`) is dropped, an `init` frame captures
the snapshot and resolves the pending promise, and any other frame — even
one arriving before `init` — is passed straight to `handleMessage`. -/
def WebsimSocket.initListener (st : ReplicaState) (frame : Option ServerToClientMessage) :
    ReplicaState × List CallbackCall :=
  match frame with
  | none => (st, [])
  | some (ServerToClientMessage.init cid rs pres prs) =>
    ({ st with clientId := cid, roomState := rs, presence := pres, peers := prs,
               initialized := true }, [])
  | some m => WebsimSocket.handleMessage st m

/-- The state of the Replica's underlying PartySocket, as far as
`sendToServer` can observe it: no socket object, a socket whose readyState
is not OPEN, or an OPEN socket. -/
inductive SocketStatus : Type where
  | noSocket
  | notOpen
  | openReady
deriving DecidableEq, Repr

/-- `WebsimSocket.sendToServer`: serialize and send only when the socket
exists and is OPEN; otherwise do nothing.  Returns the frames sent. -/
def WebsimSocket.sendToServer (sock : SocketStatus) (msg : ClientToServerMessage) :
    List ClientToServerMessage :=
  match sock with
  | SocketStatus.openReady => [msg]
  | _ => []

/-- `WebsimSocket.updatePresence`: optimistic local merge under the current
client id, then a fire-and-forget `update-presence` send. -/
def WebsimSocket.updatePresence (st : ReplicaState) (sock : SocketStatus)
    (p : List (String × JVal)) : ReplicaState × List ClientToServerMessage :=
  let merged := deepMerge ((getKey st.presence st.clientId).getD []) p
  ({ st with presence := setKey st.presence st.clientId merged },
    WebsimSocket.sendToServer sock (ClientToServerMessage.updatePresence p))

/-- `WebsimSocket.updateRoomState`: no local mutation, just a send. -/
def WebsimSocket.updateRoomState (st : ReplicaState) (sock : SocketStatus)
    (rs : List (String × JVal)) : ReplicaState × List ClientToServerMessage :=
  (st, WebsimSocket.sendToServer sock (ClientToServerMessage.updateRoomState rs))

/-- `WebsimSocket.requestPresenceUpdate`: no local mutation, just a send. -/
def WebsimSocket.requestPresenceUpdate (st : ReplicaState) (sock : SocketStatus)
    (target : String) (upd : List (String × JVal)) :
    ReplicaState × List ClientToServerMessage :=
  (st, WebsimSocket.sendToServer sock
    (ClientToServerMessage.requestPresenceUpdate target upd))

/-- `WebsimSocket.send`: wrap the event in a `broadcast-event` message and
send it; no local mutation. -/
def WebsimSocket.send (st : ReplicaState) (sock : SocketStatus) (e : ClientEvent) :
    ReplicaState × List ClientToServerMessage :=
  (st, WebsimSocket.sendToServer sock (ClientToServerMessage.broadcastEvent e))

/-- A JavaScript runtime value for the heap model of `deepMerge`: a
primitive, or a reference to a heap-allocated object/array. -/
inductive SVal : Type where
  | null
  | bool (b : Bool)
  | num (n : Int)
  | str (s : String)
  | ref (a : Nat)
deriving DecidableEq, Repr

/-- A heap node: an object with named fields or an array. -/
inductive HNode : Type where
  | obj (fields : List (String × SVal))
  | arr (elems : List SVal)
deriving DecidableEq, Repr

/-- The JavaScript heap: a store of allocated nodes and the next fresh
address. -/
structure Heap where
  store : List (Nat × HNode)
  next : Nat
deriving DecidableEq, Repr

/-- Read the node at an address. -/
def Heap.get (h : Heap) (a : Nat) : Option HNode :=
  getKey h.store a

/-- Overwrite the node at an address (in-place object mutation). -/
def Heap.set (h : Heap) (a : Nat) (n : HNode) : Heap :=
  { h with store := setKey h.store a n }

/-- Allocate a fresh node, returning the new heap and its address. -/
def Heap.alloc (h : Heap) (n : HNode) : Heap × Nat :=
  ({ store := setKey h.store h.next n, next := h.next + 1 }, h.next)

/-- Read property `k` of the object at address `r`. -/
def getField (h : Heap) (r : Nat) (k : String) : Option SVal :=
  match Heap.get h r with
  | some (HNode.obj rf) => getKey rf k
  | _ => none

/-- Write property `k` of the object at address `r` (no-op when `r` does
not hold an object). -/
def setField (h : Heap) (r : Nat) (k : String) (v : SVal) : Heap :=
  match Heap.get h r with
  | some (HNode.obj rf) => Heap.set h r (HNode.obj (setKey rf k v))
  | _ => h

/-- Delete property `k` of the object at address `r`. -/
def delField (h : Heap) (r : Nat) (k : String) : Heap :=
  match Heap.get h r with
  | some (HNode.obj rf) => Heap.set h r (HNode.obj (eraseKey rf k))
  | _ => h

mutual
/-- Heap-level `deepMerge` from src/shared/deep-merge.ts, with the object
identities made explicit.  `const result = { ...target }` allocates a fresh
shallow copy of the target node (field values, including references, are
shared); the loop over the source's keys then mutates only that fresh
node.  `fuel` bounds the recursion depth (cyclic object graphs would not
terminate in JavaScript either); `none` means fuel ran out or an argument
was not an object address. -/
def deepMergeH : Nat → Heap → Nat → Nat → Option (Heap × Nat)
  | 0, _, _, _ => none
  | Nat.succ fuel, h, ta, sa =>
    match Heap.get h ta, Heap.get h sa with
    | some (HNode.obj tf), some (HNode.obj sf) =>
      match mergeFields fuel (Heap.alloc h (HNode.obj tf)).1 (Heap.alloc h (HNode.obj tf)).2 sf with
      | some h2 => some (h2, (Heap.alloc h (HNode.obj tf)).2)
      | none => none
    | _, _ => none
termination_by fuel _ _ _ => (fuel, 0)

/-- The body of `deepMerge`'s `for (const key of Object.keys(source))`
loop, mutating the fresh result node at address `r` one source field at a
time. -/
def mergeFields : Nat → Heap → Nat → List (String × SVal) → Option Heap
  | _, h, _, [] => some h
  | fuel, h, r, (k, v) :: rest =>
    match v with
    | SVal.null => mergeFields fuel (delField h r k) r rest
    | SVal.ref a =>
      match Heap.get h a with
      | some (HNode.obj _) =>
        match getField h r k with
        | some (SVal.ref b) =>
          match Heap.get h b with
          | some (HNode.obj _) =>
            match deepMergeH fuel h b a with
            | some (h2, m) => mergeFields fuel (setField h2 r k (SVal.ref m)) r rest
            | none => none
          | _ => mergeFields fuel (setField h r k (SVal.ref a)) r rest
        | _ => mergeFields fuel (setField h r k (SVal.ref a)) r rest
      | _ => mergeFields fuel (setField h r k (SVal.ref a)) r rest
    | v => mergeFields fuel (setField h r k v) r rest
termination_by fuel _ _ l => (fuel, l.length + 1)
end

theorem getKey_setKey_self {κ α : Type} [DecidableEq κ] (l : List (κ × α)) (k : κ) (v : α) :
    getKey (setKey l k v) k = some v := by
  induction l with
  | nil => simp [setKey, getKey]
  | cons p t ih =>
    obtain ⟨k1, v1⟩ := p
    by_cases h : k1 = k
    · simp [setKey, h, getKey]
    · simp [setKey, h, getKey, ih]

theorem getKey_setKey_ne {κ α : Type} [DecidableEq κ] (l : List (κ × α)) (k k' : κ) (v : α)
    (h : k' ≠ k) : getKey (setKey l k v) k' = getKey l k' := by
  induction l with
  | nil => simp [setKey, getKey, Ne.symm h]
  | cons p t ih =>
    obtain ⟨k1, v1⟩ := p
    by_cases h1 : k1 = k
    · subst h1
      simp [setKey, getKey, Ne.symm h]
    · simp [setKey, h1, getKey, ih]

theorem getKey_eraseKey_self {κ α : Type} [DecidableEq κ] (l : List (κ × α)) (k : κ) :
    getKey (eraseKey l k) k = none := by
  induction l with
  | nil => simp [eraseKey, getKey]
  | cons p t ih =>
    obtain ⟨k1, v1⟩ := p
    by_cases h : k1 = k
    · simp [eraseKey, h, ih]
    · simp [eraseKey, h, getKey, ih]

theorem getKey_eraseKey_ne {κ α : Type} [DecidableEq κ] (l : List (κ × α)) (k k' : κ)
    (h : k' ≠ k) : getKey (eraseKey l k) k' = getKey l k' := by
  induction l with
  | nil => simp [eraseKey]
  | cons p t ih =>
    obtain ⟨k1, v1⟩ := p
    by_cases h1 : k1 = k
    · subst h1
      simp [eraseKey, getKey, Ne.symm h, ih]
    · simp [eraseKey, h1, getKey, ih]

theorem setKey_of_getKey_none {κ α : Type} [DecidableEq κ] (l : List (κ × α)) (k : κ) (v : α)
    (h : getKey l k = none) : setKey l k v = l ++ [(k, v)] := by
  induction l with
  | nil => simp [setKey]
  | cons p t ih =>
    obtain ⟨k1, v1⟩ := p
    by_cases h1 : k1 = k
    · simp [getKey, h1] at h
    · simp [getKey, h1] at h
      simp [setKey, h1, ih h]

theorem eraseKey_of_getKey_none {κ α : Type} [DecidableEq κ] (l : List (κ × α)) (k : κ)
    (h : getKey l k = none) : eraseKey l k = l := by
  induction l with
  | nil => simp [eraseKey]
  | cons p t ih =>
    obtain ⟨k1, v1⟩ := p
    by_cases h1 : k1 = k
    · simp [getKey, h1] at h
    · simp [getKey, h1] at h
      simp [eraseKey, h1, ih h]

theorem eraseKey_append {κ α : Type} [DecidableEq κ] (a b : List (κ × α)) (k : κ) :
    eraseKey (a ++ b) k = eraseKey a k ++ eraseKey b k := by
  induction a with
  | nil => simp [eraseKey]
  | cons p t ih =>
    obtain ⟨k1, v1⟩ := p
    by_cases h : k1 = k <;> simp [eraseKey, h, ih]

theorem getKey_append {κ α : Type} [DecidableEq κ] (a b : List (κ × α)) (k : κ) :
    getKey (a ++ b) k = (getKey a k).or (getKey b k) := by
  induction a with
  | nil => simp [getKey]
  | cons p t ih =>
    obtain ⟨k1, v1⟩ := p
    by_cases h : k1 = k <;> simp [getKey, h, ih]

theorem hasKey_eq_false_iff {κ α : Type} [DecidableEq κ] (l : List (κ × α)) (k : κ) :
    hasKey l k = false ↔ getKey l k = none := by
  cases o : getKey l k <;> simp [hasKey, o]

theorem getKey_reverse_of_nodup {κ α : Type} [DecidableEq κ] (l : List (κ × α)) (k : κ)
    (h : keysNodup l = true) : getKey l.reverse k = getKey l k := by
  induction l with
  | nil => simp
  | cons p t ih =>
    obtain ⟨k1, v1⟩ := p
    simp only [keysNodup, Bool.and_eq_true, Bool.not_eq_true'] at h
    rw [List.reverse_cons, getKey_append, ih h.2]
    by_cases h1 : k1 = k
    · subst h1
      rw [(hasKey_eq_false_iff t k1).mp h.1]
      simp [getKey]
    · simp [getKey, h1]

theorem hasKey_cons_of {κ α : Type} [DecidableEq κ] (k1 : κ) (v1 : α) (l : List (κ × α))
    (k : κ) (h : hasKey l k = true) : hasKey ((k1, v1) :: l) k = true := by
  by_cases e : k1 = k
  · simp [hasKey, getKey, e]
  · simpa [hasKey, getKey, e] using h

theorem deepMerge_eq_specMergeGo : ∀ (s r t : List (String × JVal)),
    keysNodup s = true → wfFields s = true →
    (∀ k, hasKey s k = true → getKey r k = getKey t k) →
    deepMerge r s = specMergeGo t r s
  | [], r, t, _, _, _ => by simp [deepMerge, specMergeGo]
  | (k, v) :: rest, r, t, h1, h2, h3 => by
    simp only [keysNodup, Bool.and_eq_true, Bool.not_eq_true'] at h1
    obtain ⟨hk, h1r⟩ := h1
    simp only [wfFields, Bool.and_eq_true] at h2
    obtain ⟨hv, h2r⟩ := h2
    have hkk : getKey r k = getKey t k := h3 k (by simp [hasKey, getKey])
    have hne : ∀ k', hasKey rest k' = true → k' ≠ k := by
      intro k' hh he
      subst he
      rw [hk] at hh
      cases hh
    have hrest : ∀ (X : List (String × JVal)),
        (∀ k', hasKey rest k' = true → getKey X k' = getKey r k') →
        ∀ k', hasKey rest k' = true → getKey X k' = getKey t k' := by
      intro X hX k' hh
      rw [hX k' hh]
      exact h3 k' (hasKey_cons_of _ _ _ _ hh)
    cases v with
    | null =>
      have e1 : deepMerge r ((k, JVal.null) :: rest) = deepMerge (eraseKey r k) rest := by
        simp only [deepMerge]
      have e2 : specMergeGo t r ((k, JVal.null) :: rest) =
          specMergeGo t (eraseKey r k) rest := by
        simp only [specMergeGo]
      rw [e1, e2]
      exact deepMerge_eq_specMergeGo rest _ t h1r h2r
        (hrest _ (fun k' hh => getKey_eraseKey_ne _ _ _ (hne k' hh)))
    | bool b =>
      have e1 : deepMerge r ((k, JVal.bool b) :: rest) =
          deepMerge (setKey r k (JVal.bool b)) rest := by
        simp only [deepMerge]
      have e2 : specMergeGo t r ((k, JVal.bool b) :: rest) =
          specMergeGo t (setKey r k (JVal.bool b)) rest := by
        simp only [specMergeGo]
      rw [e1, e2]
      exact deepMerge_eq_specMergeGo rest _ t h1r h2r
        (hrest _ (fun k' hh => getKey_setKey_ne _ _ _ _ (hne k' hh)))
    | num n =>
      have e1 : deepMerge r ((k, JVal.num n) :: rest) =
          deepMerge (setKey r k (JVal.num n)) rest := by
        simp only [deepMerge]
      have e2 : specMergeGo t r ((k, JVal.num n) :: rest) =
          specMergeGo t (setKey r k (JVal.num n)) rest := by
        simp only [specMergeGo]
      rw [e1, e2]
      exact deepMerge_eq_specMergeGo rest _ t h1r h2r
        (hrest _ (fun k' hh => getKey_setKey_ne _ _ _ _ (hne k' hh)))
    | str s1 =>
      have e1 : deepMerge r ((k, JVal.str s1) :: rest) =
          deepMerge (setKey r k (JVal.str s1)) rest := by
        simp only [deepMerge]
      have e2 : specMergeGo t r ((k, JVal.str s1) :: rest) =
          specMergeGo t (setKey r k (JVal.str s1)) rest := by
        simp only [specMergeGo]
      rw [e1, e2]
      exact deepMerge_eq_specMergeGo rest _ t h1r h2r
        (hrest _ (fun k' hh => getKey_setKey_ne _ _ _ _ (hne k' hh)))
    | arr xs =>
      have e1 : deepMerge r ((k, JVal.arr xs) :: rest) =
          deepMerge (setKey r k (JVal.arr xs)) rest := by
        simp only [deepMerge]
      have e2 : specMergeGo t r ((k, JVal.arr xs) :: rest) =
          specMergeGo t (setKey r k (JVal.arr xs)) rest := by
        simp only [specMergeGo]
      rw [e1, e2]
      exact deepMerge_eq_specMergeGo rest _ t h1r h2r
        (hrest _ (fun k' hh => getKey_setKey_ne _ _ _ _ (hne k' hh)))
    | obj sv =>
      simp only [JVal.wf, Bool.and_eq_true] at hv
      rcases hg : getKey r k with _ | w
      · have e1 : deepMerge r ((k, JVal.obj sv) :: rest) =
            deepMerge (setKey r k (JVal.obj sv)) rest := by
          simp only [deepMerge]
          rw [hg]
        have e2 : specMergeGo t r ((k, JVal.obj sv) :: rest) =
            specMergeGo t (setKey r k (JVal.obj sv)) rest := by
          simp only [specMergeGo]
          rw [← hkk, hg]
        rw [e1, e2]
        exact deepMerge_eq_specMergeGo rest _ t h1r h2r
          (hrest _ (fun k' hh => getKey_setKey_ne _ _ _ _ (hne k' hh)))
      · cases w with
        | obj tv =>
          have hrec : deepMerge tv sv = specMergeGo tv tv sv :=
            deepMerge_eq_specMergeGo sv tv tv hv.1 hv.2 (fun _ _ => rfl)
          have e1 : deepMerge r ((k, JVal.obj sv) :: rest) =
              deepMerge (setKey r k (JVal.obj (deepMerge tv sv))) rest := by
            simp only [deepMerge]
            rw [hg]
          have e2 : specMergeGo t r ((k, JVal.obj sv) :: rest) =
              specMergeGo t (setKey r k (JVal.obj (specMergeGo tv tv sv))) rest := by
            simp only [specMergeGo]
            rw [← hkk, hg]
          rw [e1, e2, ← hrec]
          exact deepMerge_eq_specMergeGo rest _ t h1r h2r
            (hrest _ (fun k' hh => getKey_setKey_ne _ _ _ _ (hne k' hh)))
        | null =>
          have e1 : deepMerge r ((k, JVal.obj sv) :: rest) =
              deepMerge (setKey r k (JVal.obj sv)) rest := by
            simp only [deepMerge]
            rw [hg]
          have e2 : specMergeGo t r ((k, JVal.obj sv) :: rest) =
              specMergeGo t (setKey r k (JVal.obj sv)) rest := by
            simp only [specMergeGo]
            rw [← hkk, hg]
          rw [e1, e2]
          exact deepMerge_eq_specMergeGo rest _ t h1r h2r
            (hrest _ (fun k' hh => getKey_setKey_ne _ _ _ _ (hne k' hh)))
        | bool b =>
          have e1 : deepMerge r ((k, JVal.obj sv) :: rest) =
              deepMerge (setKey r k (JVal.obj sv)) rest := by
            simp only [deepMerge]
            rw [hg]
          have e2 : specMergeGo t r ((k, JVal.obj sv) :: rest) =
              specMergeGo t (setKey r k (JVal.obj sv)) rest := by
            simp only [specMergeGo]
            rw [← hkk, hg]
          rw [e1, e2]
          exact deepMerge_eq_specMergeGo rest _ t h1r h2r
            (hrest _ (fun k' hh => getKey_setKey_ne _ _ _ _ (hne k' hh)))
        | num n =>
          have e1 : deepMerge r ((k, JVal.obj sv) :: rest) =
              deepMerge (setKey r k (JVal.obj sv)) rest := by
            simp only [deepMerge]
            rw [hg]
          have e2 : specMergeGo t r ((k, JVal.obj sv) :: rest) =
              specMergeGo t (setKey r k (JVal.obj sv)) rest := by
            simp only [specMergeGo]
            rw [← hkk, hg]
          rw [e1, e2]
          exact deepMerge_eq_specMergeGo rest _ t h1r h2r
            (hrest _ (fun k' hh => getKey_setKey_ne _ _ _ _ (hne k' hh)))
        | str s1 =>
          have e1 : deepMerge r ((k, JVal.obj sv) :: rest) =
              deepMerge (setKey r k (JVal.obj sv)) rest := by
            simp only [deepMerge]
            rw [hg]
          have e2 : specMergeGo t r ((k, JVal.obj sv) :: rest) =
              specMergeGo t (setKey r k (JVal.obj sv)) rest := by
            simp only [specMergeGo]
            rw [← hkk, hg]
          rw [e1, e2]
          exact deepMerge_eq_specMergeGo rest _ t h1r h2r
            (hrest _ (fun k' hh => getKey_setKey_ne _ _ _ _ (hne k' hh)))
        | arr xs =>
          have e1 : deepMerge r ((k, JVal.obj sv) :: rest) =
              deepMerge (setKey r k (JVal.obj sv)) rest := by
            simp only [deepMerge]
            rw [hg]
          have e2 : specMergeGo t r ((k, JVal.obj sv) :: rest) =
              specMergeGo t (setKey r k (JVal.obj sv)) rest := by
            simp only [specMergeGo]
            rw [← hkk, hg]
          rw [e1, e2]
          exact deepMerge_eq_specMergeGo rest _ t h1r h2r
            (hrest _ (fun k' hh => getKey_setKey_ne _ _ _ _ (hne k' hh)))
termination_by s _ _ _ _ _ => sizeOf s

/-- C2: for all mappings `target` and `source` (distinct keys throughout, as
for every genuine JavaScript record), `deepMerge target source` equals the
reference recursive merge of spec section 4.1; the four concrete examples
of the spec hold; and a `null` for an absent key is a no-op. -/
theorem claim_C2 :
    (∀ t s, recWF s = true → deepMerge t s = specMerge t s) ∧
    deepMerge [] [("a", JVal.num 1)] = [("a", JVal.num 1)] ∧
    deepMerge [("a", JVal.num 1)] [("a", JVal.null)] = [] ∧
    deepMerge [("a", JVal.obj [("b", JVal.num 1)])] [("a", JVal.obj [("c", JVal.num 2)])] =
      [("a", JVal.obj [("b", JVal.num 1), ("c", JVal.num 2)])] ∧
    deepMerge [("a", JVal.obj [("b", JVal.num 1)])] [("a", JVal.null)] = [] ∧
    (∀ t k, getKey t k = none → deepMerge t [(k, JVal.null)] = t) := by
  refine ⟨?_, ?_, ?_, ?_, ?_, ?_⟩
  · intro t s hs
    simp only [recWF, Bool.and_eq_true] at hs
    exact deepMerge_eq_specMergeGo s t t hs.1 hs.2 (fun _ _ => rfl)
  · simp [deepMerge, setKey, getKey, eraseKey]
  · simp [deepMerge, setKey, getKey, eraseKey]
  · simp [deepMerge, setKey, getKey, eraseKey]
  · simp [deepMerge, setKey, getKey, eraseKey]
  · intro t k h
    simp [deepMerge, eraseKey_of_getKey_none t k h]

/-- Witness for C2 at concrete inputs: the code merge agrees with the spec
merge on a nested-object source, and a `null` for an absent key is a
no-op. -/
theorem claim_C2_witness :
    deepMerge [("z", JVal.num 5)] [("a", JVal.obj [("b", JVal.num 1)])] =
      specMerge [("z", JVal.num 5)] [("a", JVal.obj [("b", JVal.num 1)])] ∧
    deepMerge [("z", JVal.num 5)] [("q", JVal.null)] = [("z", JVal.num 5)] :=
  ⟨claim_C2.1 _ _ (by simp [recWF, keysNodup, wfFields, JVal.wf, hasKey, getKey]),
   claim_C2.2.2.2.2.2 _ _ (by simp [getKey])⟩

/-- C9: a client-to-server message whose sender has no peer entry, and a
close for a connection with no peer entry, leave the Relay state untouched
and send nothing to anyone. -/
theorem claim_C9 (conns : List String) (st : ServerState) (senderId : String)
    (h : getKey st.peers senderId = none) :
    (∀ msg, WebsimServer.onMessage conns st senderId msg = (st, [])) ∧
    WebsimServer.onClose conns st senderId = (st, []) := by
  constructor
  · intro msg
    simp only [WebsimServer.onMessage, h]
  · simp only [WebsimServer.onClose, h]

/-- Witness for C9: a concrete relay with one registered peer drops a
room-state update and a close from an unknown sender without any state
change or send. -/
theorem claim_C9_witness :
    WebsimServer.onMessage ["c1"]
      { peers := [("c1", { username := "alice", avatarUrl := "" })],
        presence := [("c1", [])], roomState := [] } "ghost"
      (ClientToServerMessage.updateRoomState [("x", JVal.num 1)]) =
      ({ peers := [("c1", { username := "alice", avatarUrl := "" })],
         presence := [("c1", [])], roomState := [] }, []) ∧
    WebsimServer.onClose ["c1"]
      { peers := [("c1", { username := "alice", avatarUrl := "" })],
        presence := [("c1", [])], roomState := [] } "ghost" =
      ({ peers := [("c1", { username := "alice", avatarUrl := "" })],
         presence := [("c1", [])], roomState := [] }, []) :=
  ⟨(claim_C9 ["c1"] _ "ghost" (by simp [getKey])).1 _,
   (claim_C9 ["c1"] _ "ghost" (by simp [getKey])).2⟩

/-- C8: connecting a fresh id and then closing it restores `peers` and
`presence` exactly; in between, the connect created precisely the new
PeerInfo entry and an empty presence entry for that id. -/
theorem claim_C8 (conns conns2 : List String) (st : ServerState) (c : String)
    (qu qa : Option String) (h1 : getKey st.peers c = none)
    (h2 : getKey st.presence c = none) :
    getKey (WebsimServer.onConnect conns st c qu qa).1.peers c =
      some { username := orFallback qu ("Guest-" ++ c.take 4),
             avatarUrl :=
               orFallback qa ("https://api.dicebear.com/7.x/pixel-art/svg?seed=" ++ c) } ∧
    getKey (WebsimServer.onConnect conns st c qu qa).1.presence c = some [] ∧
    (WebsimServer.onClose conns2 (WebsimServer.onConnect conns st c qu qa).1 c).1 = st := by
  refine ⟨?_, ?_, ?_⟩
  · simp only [WebsimServer.onConnect]
    exact getKey_setKey_self _ _ _
  · simp only [WebsimServer.onConnect]
    exact getKey_setKey_self _ _ _
  · simp only [WebsimServer.onConnect, WebsimServer.onClose, getKey_setKey_self]
    rw [setKey_of_getKey_none _ _ _ h1, setKey_of_getKey_none _ _ _ h2,
      eraseKey_append, eraseKey_append,
      eraseKey_of_getKey_none _ _ h1, eraseKey_of_getKey_none _ _ h2]
    simp [eraseKey]

/-- Witness for C8: a concrete connect of "c2" onto a relay knowing only
"c1", followed by the close of "c2", restores the original state. -/
theorem claim_C8_witness :
    (WebsimServer.onClose ["c1"]
      (WebsimServer.onConnect ["c1", "c2"]
        { peers := [("c1", { username := "alice", avatarUrl := "" })],
          presence := [("c1", [("x", JVal.num 1)])], roomState := [] }
        "c2" (some "bob") none).1 "c2").1 =
      { peers := [("c1", { username := "alice", avatarUrl := "" })],
        presence := [("c1", [("x", JVal.num 1)])], roomState := [] } :=
  (claim_C8 ["c1", "c2"] ["c1"] _ "c2" (some "bob") none
    (by simp [getKey]) (by simp [getKey])).2.2

/-- C4: the presence entry of client `c` is changed only by `c`'s own
connect (created empty), by an `update-presence` whose sender is `c`
(merged), and by `c`'s own close (deleted); no handler invocation for a
different connection id ever changes `presence[c]`. -/
theorem claim_C4 (c : String) :
    (∀ conns st s msg, s ≠ c →
      getKey (WebsimServer.onMessage conns st s msg).1.presence c =
        getKey st.presence c) ∧
    (∀ conns st d qu qa, d ≠ c →
      getKey (WebsimServer.onConnect conns st d qu qa).1.presence c =
        getKey st.presence c) ∧
    (∀ conns st d, d ≠ c →
      getKey (WebsimServer.onClose conns st d).1.presence c = getKey st.presence c) ∧
    (∀ conns st qu qa,
      getKey (WebsimServer.onConnect conns st c qu qa).1.presence c = some []) ∧
    (∀ conns st info p, getKey st.peers c = some info →
      getKey (WebsimServer.onMessage conns st c
        (ClientToServerMessage.updatePresence p)).1.presence c =
        some (deepMerge ((getKey st.presence c).getD []) p)) ∧
    (∀ conns st msg, (∀ p, msg ≠ ClientToServerMessage.updatePresence p) →
      (WebsimServer.onMessage conns st c msg).1.presence = st.presence) ∧
    (∀ conns st info, getKey st.peers c = some info →
      getKey (WebsimServer.onClose conns st c).1.presence c = none) := by
  refine ⟨?_, ?_, ?_, ?_, ?_, ?_, ?_⟩
  · intro conns st s msg hs
    cases hp : getKey st.peers s with
    | none => simp only [WebsimServer.onMessage, hp]
    | some info =>
      cases msg with
      | updatePresence p =>
        simp only [WebsimServer.onMessage, hp]
        exact getKey_setKey_ne _ _ _ _ (Ne.symm hs)
      | updateRoomState rs => simp only [WebsimServer.onMessage, hp]
      | requestPresenceUpdate target upd =>
        simp only [WebsimServer.onMessage, hp]
        split <;> rfl
      | broadcastEvent e => simp only [WebsimServer.onMessage, hp]
  · intro conns st d qu qa hd
    simp only [WebsimServer.onConnect]
    exact getKey_setKey_ne _ _ _ _ (Ne.symm hd)
  · intro conns st d hd
    cases hp : getKey st.peers d with
    | none => simp only [WebsimServer.onClose, hp]
    | some info =>
      simp only [WebsimServer.onClose, hp]
      exact getKey_eraseKey_ne _ _ _ (Ne.symm hd)
  · intro conns st qu qa
    simp only [WebsimServer.onConnect]
    exact getKey_setKey_self _ _ _
  · intro conns st info p hp
    simp only [WebsimServer.onMessage, hp]
    exact getKey_setKey_self _ _ _
  · intro conns st msg hmsg
    cases hp : getKey st.peers c with
    | none => simp only [WebsimServer.onMessage, hp]
    | some info =>
      cases msg with
      | updatePresence p => exact absurd rfl (hmsg p)
      | updateRoomState rs => simp only [WebsimServer.onMessage, hp]
      | requestPresenceUpdate target upd =>
        simp only [WebsimServer.onMessage, hp]
        split <;> rfl
      | broadcastEvent e => simp only [WebsimServer.onMessage, hp]
  · intro conns st info hp
    simp only [WebsimServer.onClose, hp]
    exact getKey_eraseKey_self _ _

/-- Witness for C4 at concrete inputs: a presence update sent by "c2" does
not change "c1"'s presence entry, an update-presence from "c1" merges into
its own entry, and "c1"'s close deletes it. -/
theorem claim_C4_witness :
    getKey (WebsimServer.onMessage ["c1", "c2"]
      { peers := [("c1", { username := "alice", avatarUrl := "" }),
                  ("c2", { username := "bob", avatarUrl := "" })],
        presence := [("c1", [("x", JVal.num 1)]), ("c2", [])], roomState := [] }
      "c2" (ClientToServerMessage.updatePresence [("y", JVal.num 7)])).1.presence "c1" =
      some [("x", JVal.num 1)] ∧
    getKey (WebsimServer.onMessage ["c1", "c2"]
      { peers := [("c1", { username := "alice", avatarUrl := "" }),
                  ("c2", { username := "bob", avatarUrl := "" })],
        presence := [("c1", [("x", JVal.num 1)]), ("c2", [])], roomState := [] }
      "c1" (ClientToServerMessage.updatePresence [("y", JVal.num 7)])).1.presence "c1" =
      some (deepMerge [("x", JVal.num 1)] [("y", JVal.num 7)]) ∧
    getKey (WebsimServer.onClose ["c2"]
      { peers := [("c1", { username := "alice", avatarUrl := "" }),
                  ("c2", { username := "bob", avatarUrl := "" })],
        presence := [("c1", [("x", JVal.num 1)]), ("c2", [])], roomState := [] }
      "c1").1.presence "c1" = none := by
  refine ⟨?_, ?_, ?_⟩
  · rw [(claim_C4 "c1").1 ["c1", "c2"] _ "c2" _ (by simp)]
    simp [getKey]
  · rw [(claim_C4 "c1").2.2.2.2.1 ["c1", "c2"] _
      { username := "alice", avatarUrl := "" } [("y", JVal.num 7)] (by simp [getKey])]
    simp [getKey]
  · exact (claim_C4 "c1").2.2.2.2.2.2 ["c2"] _ { username := "alice", avatarUrl := "" }
      (by simp [getKey])

theorem option_eq_some_getD {α : Type} (o : Option α) (d : α) (h : o.isSome = true) :
    o = some (o.getD d) := by
  cases o
  · cases h
  · rfl

theorem presence_fold_aux (conns : List String) (c : String) :
    ∀ (ms : List (List (String × JVal))) (st : ServerState) (info : PeerInfo),
      getKey st.peers c = some info →
      getKey (ms.foldl (fun s p => (WebsimServer.onMessage conns s c
          (ClientToServerMessage.updatePresence p)).1) st).peers c = some info ∧
      (getKey (ms.foldl (fun s p => (WebsimServer.onMessage conns s c
          (ClientToServerMessage.updatePresence p)).1) st).presence c).getD [] =
        ms.foldl deepMerge ((getKey st.presence c).getD []) ∧
      (ms ≠ [] → (getKey (ms.foldl (fun s p => (WebsimServer.onMessage conns s c
          (ClientToServerMessage.updatePresence p)).1) st).presence c).isSome = true)
  | [], _, _, hp => ⟨hp, rfl, fun h => absurd rfl h⟩
  | p :: rest, st, info, hp => by
    have hstep : (WebsimServer.onMessage conns st c
        (ClientToServerMessage.updatePresence p)).1 =
        { st with presence :=
            setKey st.presence c (deepMerge ((getKey st.presence c).getD []) p) } := by
      simp only [WebsimServer.onMessage, hp]
    rw [List.foldl_cons, List.foldl_cons, hstep]
    have hp' : getKey ({ st with presence := setKey st.presence c (deepMerge ((getKey st.presence c).getD []) p) } : ServerState).peers c = some info := hp
    obtain ⟨ih1, ih2, ih3⟩ := presence_fold_aux conns c rest _ info hp'
    refine ⟨ih1, ?_, ?_⟩
    · rw [ih2]
      simp [getKey_setKey_self]
    · intro _
      by_cases hr : rest = []
      · subst hr
        simp [getKey_setKey_self]
      · exact ih3 hr

/-- C5: processing a nonempty sequence of `update-presence` messages from a
connected client in arrival order leaves that client's authoritative
presence entry equal to the left fold of `deepMerge` over the sequence,
started from the previous entry (empty if absent); and `deepMerge` is not
commutative, so a different order gives a different result in general. -/
theorem claim_C5 (conns : List String) (st : ServerState) (c : String) (info : PeerInfo)
    (ms : List (List (String × JVal)))
    (hpeer : getKey st.peers c = some info) (hne : ms ≠ []) :
    getKey (ms.foldl (fun s p => (WebsimServer.onMessage conns s c
        (ClientToServerMessage.updatePresence p)).1) st).presence c =
      some (ms.foldl deepMerge ((getKey st.presence c).getD [])) ∧
    ¬ (∀ p q r0, deepMerge (deepMerge r0 p) q = deepMerge (deepMerge r0 q) p) := by
  obtain ⟨_, h2, h3⟩ := presence_fold_aux conns c ms st info hpeer
  constructor
  · rw [option_eq_some_getD _ [] (h3 hne), h2]
  · intro hcomm
    have hx := hcomm [("x", JVal.num 1)] [("x", JVal.num 2)] []
    simp [deepMerge, setKey, getKey, eraseKey] at hx

/-- Witness for C5: two consecutive presence updates from "c1" leave its
entry equal to the two-step left fold of `deepMerge`. -/
theorem claim_C5_witness :
    getKey ([[("a", JVal.num 1)], [("a", JVal.num 2)]].foldl (fun s p =>
        (WebsimServer.onMessage ["c1"] s "c1"
          (ClientToServerMessage.updatePresence p)).1)
        { peers := [("c1", { username := "alice", avatarUrl := "" })],
          presence := [("c1", [])], roomState := [] }).presence "c1" =
      some ([[("a", JVal.num 1)], [("a", JVal.num 2)]].foldl deepMerge
        ((getKey ([("c1", [])] : List (String × List (String × JVal))) "c1").getD [])) :=
  (claim_C5 ["c1"] _ "c1" { username := "alice", avatarUrl := "" }
    [[("a", JVal.num 1)], [("a", JVal.num 2)]] (by simp [getKey]) (by simp)).1

/-- C6: for a `broadcast-event` from a registered sender, the Relay sends
the resulting event to every connected client except the sender when
`echo` is literally `false`, and to every connected client including the
sender when `echo` is `true` or absent (absent defaults to `true`). -/
theorem claim_C6 (conns : List String) (st : ServerState) (s : String) (info : PeerInfo)
    (e : ClientEvent) (hpeer : getKey st.peers s = some info) :
    (e.echo = some false →
      (WebsimServer.onMessage conns st s (ClientToServerMessage.broadcastEvent e)).2 =
        (conns.filter (fun c => c ≠ s)).map
          (fun c => (c, ServerToClientMessage.event (relayEventData s info e))) ∧
      (∀ m, (s, m) ∉
        (WebsimServer.onMessage conns st s (ClientToServerMessage.broadcastEvent e)).2)) ∧
    (e.echo ≠ some false →
      (WebsimServer.onMessage conns st s (ClientToServerMessage.broadcastEvent e)).2 =
        conns.map (fun c => (c, ServerToClientMessage.event (relayEventData s info e))) ∧
      (s ∈ conns → (s, ServerToClientMessage.event (relayEventData s info e)) ∈
        (WebsimServer.onMessage conns st s (ClientToServerMessage.broadcastEvent e)).2)) := by
  constructor
  · intro hecho
    have houts :
        (WebsimServer.onMessage conns st s (ClientToServerMessage.broadcastEvent e)).2 =
        (conns.filter (fun c => c ≠ s)).map
          (fun c => (c, ServerToClientMessage.event (relayEventData s info e))) := by
      simp only [WebsimServer.onMessage, hpeer, hecho, broadcastTo, Option.getD]
      simp
    refine ⟨houts, ?_⟩
    intro m hm
    rw [houts] at hm
    simp only [List.mem_map, List.mem_filter] at hm
    obtain ⟨c, ⟨_, hc⟩, heq⟩ := hm
    have : c = s := congrArg Prod.fst heq
    subst this
    simp at hc
  · intro hecho
    have hdef : e.echo.getD true = true := by
      rcases he : e.echo with _ | b
      · rfl
      · cases b
        · exact absurd he hecho
        · rfl
    have houts :
        (WebsimServer.onMessage conns st s (ClientToServerMessage.broadcastEvent e)).2 =
        conns.map (fun c => (c, ServerToClientMessage.event (relayEventData s info e))) := by
      simp only [WebsimServer.onMessage, hpeer, hdef, broadcastTo]
      simp
    refine ⟨houts, ?_⟩
    intro hs
    rw [houts]
    simp only [List.mem_map]
    exact ⟨s, hs, rfl⟩

/-- Witness for C6: with connections "c1" and "c2" and sender "c1", an
`echo:false` event reaches exactly "c2", and an `echo`-absent event
reaches both. -/
theorem claim_C6_witness :
    (WebsimServer.onMessage ["c1", "c2"]
      { peers := [("c1", { username := "alice", avatarUrl := "" })],
        presence := [("c1", [])], roomState := [] } "c1"
      (ClientToServerMessage.broadcastEvent
        { type := "boom", echo := some false, rest := [] })).2 =
      (["c1", "c2"].filter (fun c => c ≠ "c1")).map
        (fun c => (c, ServerToClientMessage.event (relayEventData "c1"
          { username := "alice", avatarUrl := "" }
          { type := "boom", echo := some false, rest := [] }))) ∧
    ("c1", ServerToClientMessage.event (relayEventData "c1"
        { username := "alice", avatarUrl := "" }
        { type := "boom", echo := none, rest := [] })) ∈
      (WebsimServer.onMessage ["c1", "c2"]
        { peers := [("c1", { username := "alice", avatarUrl := "" })],
          presence := [("c1", [])], roomState := [] } "c1"
        (ClientToServerMessage.broadcastEvent
          { type := "boom", echo := none, rest := [] })).2 :=
  ⟨((claim_C6 ["c1", "c2"] _ "c1" _ _ (by simp [getKey])).1 rfl).1,
   ((claim_C6 ["c1", "c2"] _ "c1" _ _ (by simp [getKey])).2 (by simp)).2 (by simp)⟩

theorem getKey_foldl_setKey {α : Type} (l init : List (String × α)) (k : String) :
    getKey (l.foldl (fun acc kv => setKey acc kv.1 kv.2) init) k =
      (getKey l.reverse k).or (getKey init k) := by
  induction l generalizing init with
  | nil => simp [getKey]
  | cons kv t ih =>
    rw [List.foldl_cons, ih, List.reverse_cons, getKey_append]
    rcases kv with ⟨k1, v⟩
    by_cases h : k1 = k
    · subst h
      rw [getKey_setKey_self]
      cases getKey t.reverse k1 <;> simp [getKey, Option.or]
    · rw [getKey_setKey_ne _ _ _ _ (Ne.symm h)]
      cases getKey t.reverse k <;> simp [getKey, h, Option.or]

/-- C1 fails on the code: the object literal in the `broadcast-event` case
spreads the sender's remaining event fields after `clientId`/`username`,
so a sender-supplied `clientId` field survives instead of being overridden
by the sending connection's id.  Here connection "c1" (registered as
"alice") sends an event carrying `clientId:"spoof"`, and the Relay
broadcasts a payload whose `clientId` is `"spoof"`, not `"c1"`. -/
theorem claim_C1_counterexample :
    (WebsimServer.onMessage ["c1", "c2"]
      { peers := [("c1", { username := "alice", avatarUrl := "" })],
        presence := [("c1", [])], roomState := [] } "c1"
      (ClientToServerMessage.broadcastEvent
        { type := "boom", echo := none, rest := [("clientId", JVal.str "spoof")] })).2 =
      [("c1", ServerToClientMessage.event
          [("type", JVal.str "boom"), ("clientId", JVal.str "spoof"),
           ("username", JVal.str "alice")]),
       ("c2", ServerToClientMessage.event
          [("type", JVal.str "boom"), ("clientId", JVal.str "spoof"),
           ("username", JVal.str "alice")])] ∧
    getKey (relayEventData "c1" { username := "alice", avatarUrl := "" }
        { type := "boom", echo := none, rest := [("clientId", JVal.str "spoof")] })
        "clientId" ≠ some (JVal.str "c1") := by
  constructor
  · simp [WebsimServer.onMessage, getKey, relayEventData, setKey, broadcastTo]
  · simp [relayEventData, setKey, getKey]

/-- C1 as the code actually behaves: the outgoing payload starts from
`type`, the sender's connection id and registered username, and then the
sender's remaining event fields (with `echo` and `type` removed) are
spread over it, later keys overwriting — so `clientId`/`username` hold the
sending connection's values exactly when the sender did not supply those
fields, and hold the sender-supplied values when it did; all other fields
are taken from the event verbatim. -/
theorem claim_C1_amended (s : String) (info : PeerInfo) (e : ClientEvent)
    (hn : keysNodup e.rest = true) :
    (getKey e.rest "clientId" = none →
      getKey (relayEventData s info e) "clientId" = some (JVal.str s)) ∧
    (getKey e.rest "username" = none →
      getKey (relayEventData s info e) "username" = some (JVal.str info.username)) ∧
    (∀ v, getKey e.rest "clientId" = some v →
      getKey (relayEventData s info e) "clientId" = some v) ∧
    (∀ v, getKey e.rest "username" = some v →
      getKey (relayEventData s info e) "username" = some v) ∧
    (getKey e.rest "type" = none →
      getKey (relayEventData s info e) "type" = some (JVal.str e.type)) ∧
    (∀ k, k ≠ "type" → k ≠ "clientId" → k ≠ "username" →
      getKey (relayEventData s info e) k = getKey e.rest k) := by
  have key : ∀ k, getKey (relayEventData s info e) k =
      (getKey e.rest k).or (getKey
        [("type", JVal.str e.type), ("clientId", JVal.str s),
         ("username", JVal.str info.username)] k) := by
    intro k
    rw [relayEventData, getKey_foldl_setKey, getKey_reverse_of_nodup _ _ hn]
  refine ⟨?_, ?_, ?_, ?_, ?_, ?_⟩
  · intro h
    rw [key, h]
    simp [getKey, Option.or]
  · intro h
    rw [key, h]
    simp [getKey, Option.or]
  · intro v h
    rw [key, h]
    simp [Option.or]
  · intro v h
    rw [key, h]
    simp [Option.or]
  · intro h
    rw [key, h]
    simp [getKey, Option.or]
  · intro k h1 h2 h3
    rw [key]
    have hbase : getKey
        [("type", JVal.str e.type), ("clientId", JVal.str s),
         ("username", JVal.str info.username)] k = none := by
      simp [getKey, Ne.symm h1, Ne.symm h2, Ne.symm h3]
    rw [hbase]
    cases getKey e.rest k <;> simp [Option.or]

/-- Witness for C1 (amended): when the event carries no `clientId` field
the payload's `clientId` is the sender's id, and when it does carry one
the sender-supplied value survives. -/
theorem claim_C1_amended_witness :
    getKey (relayEventData "c1" { username := "alice", avatarUrl := "" }
        { type := "boom", echo := none, rest := [("hp", JVal.num 5)] }) "clientId" =
      some (JVal.str "c1") ∧
    getKey (relayEventData "c1" { username := "alice", avatarUrl := "" }
        { type := "boom", echo := none, rest := [("clientId", JVal.str "spoof")] })
        "clientId" = some (JVal.str "spoof") :=
  ⟨(claim_C1_amended "c1" _ _ (by simp [keysNodup, hasKey, getKey])).1
      (by simp [getKey]),
   (claim_C1_amended "c1" _ _ (by simp [keysNodup, hasKey, getKey])).2.2.1
      (JVal.str "spoof") (by simp [getKey])⟩

/-- C3 fails on the code: the listener installed by `initialize()` passes
every parseable non-init message to `handleMessage` even before `init` has
arrived.  A `presence-updated` frame delivered to a fresh, uninitialized
Replica mutates the local presence mirror and notifies the presence
subscribers instead of being ignored. -/
theorem claim_C3_counterexample :
    (WebsimSocket.initListener replicaInit
        (some (ServerToClientMessage.presenceUpdated "p1"
          [("x", JVal.num 1)]))).1.presence ≠ replicaInit.presence ∧
    (WebsimSocket.initListener replicaInit
        (some (ServerToClientMessage.presenceUpdated "p1"
          [("x", JVal.num 1)]))).2 ≠ [] := by
  constructor
  · simp [WebsimSocket.initListener, WebsimSocket.handleMessage, replicaInit, setKey]
  · simp [WebsimSocket.initListener, WebsimSocket.handleMessage, replicaInit, setKey]

/-- C3 as the code actually behaves: during `initialize()`, an unparseable
frame is dropped silently; an `init` frame captures the snapshot
(clientId, roomState, presence, peers) and resolves the pending promise;
and every other message — before or after `init` — is dispatched to the
ordinary `handleMessage` path, so it can mutate the mirror and fire
subscriber callbacks.  In particular a `presence-updated` frame arriving
before `init` overwrites that client's entry and notifies the presence
subscribers. -/
theorem claim_C3_amended :
    (∀ st, WebsimSocket.initListener st none = (st, [])) ∧
    (∀ st cid rs pres prs,
      WebsimSocket.initListener st (some (ServerToClientMessage.init cid rs pres prs)) =
        ({ st with clientId := cid, roomState := rs, presence := pres, peers := prs,
                   initialized := true }, [])) ∧
    (∀ st m, (∀ cid rs pres prs, m ≠ ServerToClientMessage.init cid rs pres prs) →
      WebsimSocket.initListener st (some m) = WebsimSocket.handleMessage st m) ∧
    (∀ st cid p,
      WebsimSocket.initListener st (some (ServerToClientMessage.presenceUpdated cid p)) =
        ({ st with presence := setKey st.presence cid p },
         [CallbackCall.presenceSubscribers (setKey st.presence cid p)])) := by
  refine ⟨fun st => rfl, fun st cid rs pres prs => rfl, ?_, fun st cid p => rfl⟩
  intro st m hm
  cases m with
  | init cid rs pres prs => exact absurd rfl (hm cid rs pres prs)
  | presenceUpdated cid p => rfl
  | roomStateUpdated rs => rfl
  | presenceUpdateRequest upd fromId => rfl
  | peerJoined cid u a => rfl
  | peerLeft cid => rfl
  | event d => rfl

/-- Witness for C3 (amended): a concrete `room-state-updated` frame
delivered before `init` is routed to `handleMessage`. -/
theorem claim_C3_amended_witness :
    WebsimSocket.initListener replicaInit
        (some (ServerToClientMessage.roomStateUpdated [("s", JVal.num 3)])) =
      WebsimSocket.handleMessage replicaInit
        (ServerToClientMessage.roomStateUpdated [("s", JVal.num 3)]) :=
  claim_C3_amended.2.2.1 replicaInit
    (ServerToClientMessage.roomStateUpdated [("s", JVal.num 3)])
    (fun _ _ _ _ h => ServerToClientMessage.noConfusion h)

/-- C10: whenever the socket is absent or not OPEN, `sendToServer` sends
nothing; hence `updateRoomState`, `requestPresenceUpdate` and `send` are
complete no-ops, while `updatePresence` still performs its optimistic
local merge under the current client id — which is the empty string on a
fresh, uninitialized Replica. -/
theorem claim_C10 (sock : SocketStatus) (h : sock ≠ SocketStatus.openReady) :
    (∀ m, WebsimSocket.sendToServer sock m = []) ∧
    (∀ st rs, WebsimSocket.updateRoomState st sock rs = (st, [])) ∧
    (∀ st t u, WebsimSocket.requestPresenceUpdate st sock t u = (st, [])) ∧
    (∀ st e, WebsimSocket.send st sock e = (st, [])) ∧
    (∀ st p, (WebsimSocket.updatePresence st sock p).2 = [] ∧
      getKey (WebsimSocket.updatePresence st sock p).1.presence st.clientId =
        some (deepMerge ((getKey st.presence st.clientId).getD []) p)) ∧
    replicaInit.clientId = "" := by
  have hsend : ∀ m, WebsimSocket.sendToServer sock m = [] := by
    intro m
    cases sock with
    | noSocket => rfl
    | notOpen => rfl
    | openReady => exact absurd rfl h
  refine ⟨hsend, ?_, ?_, ?_, ?_, rfl⟩
  · intro st rs
    simp [WebsimSocket.updateRoomState, hsend]
  · intro st t u
    simp [WebsimSocket.requestPresenceUpdate, hsend]
  · intro st e
    simp [WebsimSocket.send, hsend]
  · intro st p
    refine ⟨by simp [WebsimSocket.updatePresence, hsend], ?_⟩
    simp only [WebsimSocket.updatePresence]
    exact getKey_setKey_self _ _ _

/-- Witness for C10: on a fresh Replica with no socket, an update-presence
call sends nothing but merges locally under the empty client id, and a
room-state update is a complete no-op. -/
theorem claim_C10_witness :
    (WebsimSocket.updatePresence replicaInit SocketStatus.noSocket
        [("x", JVal.num 1)]).2 = [] ∧
    getKey (WebsimSocket.updatePresence replicaInit SocketStatus.noSocket
        [("x", JVal.num 1)]).1.presence replicaInit.clientId =
      some (deepMerge ((getKey replicaInit.presence replicaInit.clientId).getD [])
        [("x", JVal.num 1)]) ∧
    WebsimSocket.updateRoomState replicaInit SocketStatus.noSocket [("s", JVal.num 2)] =
      (replicaInit, []) :=
  ⟨((claim_C10 SocketStatus.noSocket (by simp)).2.2.2.2.1 replicaInit
      [("x", JVal.num 1)]).1,
   ((claim_C10 SocketStatus.noSocket (by simp)).2.2.2.2.1 replicaInit
      [("x", JVal.num 1)]).2,
   (claim_C10 SocketStatus.noSocket (by simp)).2.1 replicaInit [("s", JVal.num 2)]⟩

theorem Heap.get_set_self (h : Heap) (a : Nat) (n : HNode) : (h.set a n).get a = some n :=
  getKey_setKey_self _ _ _

theorem Heap.get_set_ne (h : Heap) (a a' : Nat) (n : HNode) (hne : a' ≠ a) :
    (h.set a n).get a' = h.get a' :=
  getKey_setKey_ne _ _ _ _ hne

theorem setField_next (h : Heap) (r : Nat) (k : String) (v : SVal) :
    (setField h r k v).next = h.next := by
  unfold setField
  split <;> rfl

theorem delField_next (h : Heap) (r : Nat) (k : String) :
    (delField h r k).next = h.next := by
  unfold delField
  split <;> rfl

theorem setField_get_ne (h : Heap) (r a : Nat) (k : String) (v : SVal) (hne : a ≠ r) :
    (setField h r k v).get a = h.get a := by
  unfold setField
  split
  · exact Heap.get_set_ne _ _ _ _ hne
  · rfl

theorem delField_get_ne (h : Heap) (r a : Nat) (k : String) (hne : a ≠ r) :
    (delField h r k).get a = h.get a := by
  unfold delField
  split
  · exact Heap.get_set_ne _ _ _ _ hne
  · rfl

theorem getField_congr (h1 h2 : Heap) (r : Nat) (k : String)
    (he : h1.get r = h2.get r) : getField h1 r k = getField h2 r k := by
  unfold getField
  rw [he]

theorem getField_setField_ne (h : Heap) (r : Nat) (k k' : String) (v : SVal)
    (hne : k' ≠ k) : getField (setField h r k v) r k' = getField h r k' := by
  unfold setField
  cases hg : h.get r with
  | none => rfl
  | some n =>
    cases n with
    | arr xs => rfl
    | obj rf =>
      unfold getField
      rw [Heap.get_set_self, hg]
      exact getKey_setKey_ne _ _ _ _ hne

theorem getField_setField_self_inv (h : Heap) (r : Nat) (k : String) (v v' : SVal)
    (hc : getField (setField h r k v) r k = some v') : v' = v := by
  unfold setField at hc
  cases hg : h.get r with
  | none =>
    rw [hg] at hc
    unfold getField at hc
    rw [hg] at hc
    cases hc
  | some n =>
    cases n with
    | arr xs =>
      rw [hg] at hc
      unfold getField at hc
      rw [hg] at hc
      cases hc
    | obj rf =>
      rw [hg] at hc
      unfold getField at hc
      rw [Heap.get_set_self] at hc
      have hc' : getKey (setKey rf k v) k = some v' := hc
      rw [getKey_setKey_self] at hc'
      exact (Option.some.inj hc').symm

theorem getField_delField_self (h : Heap) (r : Nat) (k : String) :
    getField (delField h r k) r k = none := by
  unfold delField
  cases hg : h.get r with
  | none =>
    unfold getField
    rw [hg]
  | some n =>
    cases n with
    | arr xs =>
      unfold getField
      rw [hg]
    | obj rf =>
      unfold getField
      rw [Heap.get_set_self]
      exact getKey_eraseKey_self _ _

theorem getField_delField_ne (h : Heap) (r : Nat) (k k' : String) (hne : k' ≠ k) :
    getField (delField h r k) r k' = getField h r k' := by
  unfold delField
  cases hg : h.get r with
  | none => rfl
  | some n =>
    cases n with
    | arr xs => rfl
    | obj rf =>
      unfold getField
      rw [Heap.get_set_self, hg]
      exact getKey_eraseKey_ne _ _ _ hne

/-- Frame property of the heap-level merge: no pre-existing address is ever
written, the result is a fresh address, and every field of the result
either comes from the target node, comes verbatim from the source node, or
is a reference to a freshly allocated node. -/
def heapFrameP (fuel : Nat) : Prop :=
  ∀ h ta sa h2 r, deepMergeH fuel h ta sa = some (h2, r) →
    h.next ≤ h2.next ∧ h.next ≤ r ∧
    (∀ a, a < h.next → h2.get a = h.get a) ∧
    (∀ k v, getField h2 r k = some v →
      (∃ tf, h.get ta = some (HNode.obj tf) ∧ getKey tf k = some v) ∨
      (∃ sf, h.get sa = some (HNode.obj sf) ∧ (k, v) ∈ sf) ∨
      (∃ m, v = SVal.ref m ∧ h.next ≤ m))

/-- Conclusion of the field-loop frame property: the loop only grows the
heap, writes no pre-existing address other than the result node `r`, and
every field of `r` afterwards was already there before the loop, is a
verbatim source field, or is a freshly allocated reference. -/
def QConc (l : List (String × SVal)) (h : Heap) (r : Nat) (h2 : Heap) : Prop :=
  h.next ≤ h2.next ∧
  (∀ a, a < h.next → a ≠ r → h2.get a = h.get a) ∧
  (∀ k v, getField h2 r k = some v →
    getField h r k = some v ∨ (k, v) ∈ l ∨ (∃ m, v = SVal.ref m ∧ h.next ≤ m))

/-- Frame property of the field loop: only the fresh result node `r` is
written. -/
def heapFrameQ (fuel : Nat) : Prop :=
  ∀ l h r h2, r < h.next → mergeFields fuel h r l = some h2 → QConc l h r h2

theorem Heap.alloc_get_ne (h : Heap) (n : HNode) (a : Nat) (ha : a ≠ h.next) :
    (h.alloc n).1.get a = h.get a :=
  getKey_setKey_ne _ _ _ _ ha

theorem Heap.alloc_get_self (h : Heap) (n : HNode) :
    (h.alloc n).1.get (h.alloc n).2 = some n :=
  getKey_setKey_self _ _ _

theorem getField_of_get_obj (h : Heap) (r : Nat) (k : String) (rf : List (String × SVal))
    (he : h.get r = some (HNode.obj rf)) : getField h r k = getKey rf k := by
  unfold getField
  rw [he]

theorem QConc_verbatim (fuel : Nat) (k : String) (v : SVal) (rest : List (String × SVal))
    (h : Heap) (r : Nat) (h2 : Heap) (hr : r < h.next)
    (ih : ∀ h' r' h2', r' < h'.next → mergeFields fuel h' r' rest = some h2' →
      QConc rest h' r' h2')
    (hm : mergeFields fuel (setField h r k v) r rest = some h2) :
    QConc ((k, v) :: rest) h r h2 := by
  have hnext : (setField h r k v).next = h.next := setField_next _ _ _ _
  obtain ⟨q1, q2, q3⟩ := ih _ r h2 (by rw [hnext]; exact hr) hm
  rw [hnext] at q1
  refine ⟨q1, ?_, ?_⟩
  · intro a ha hne
    have hq := q2 a (by rw [hnext]; exact ha) hne
    rw [hq]
    exact setField_get_ne _ _ _ _ _ hne
  · intro k' v' hv'
    rcases q3 k' v' hv' with hq | hq | hq
    · by_cases hk : k' = k
      · subst hk
        have he := getField_setField_self_inv _ _ _ _ _ hq
        subst he
        exact Or.inr (Or.inl (List.mem_cons_self _ _))
      · rw [getField_setField_ne _ _ _ _ _ hk] at hq
        exact Or.inl hq
    · exact Or.inr (Or.inl (List.mem_cons_of_mem _ hq))
    · obtain ⟨m, e1, e2⟩ := hq
      rw [hnext] at e2
      exact Or.inr (Or.inr ⟨m, e1, e2⟩)

theorem QConc_null (fuel : Nat) (k : String) (rest : List (String × SVal))
    (h : Heap) (r : Nat) (h2 : Heap) (hr : r < h.next)
    (ih : ∀ h' r' h2', r' < h'.next → mergeFields fuel h' r' rest = some h2' →
      QConc rest h' r' h2')
    (hm : mergeFields fuel (delField h r k) r rest = some h2) :
    QConc ((k, SVal.null) :: rest) h r h2 := by
  have hnext : (delField h r k).next = h.next := delField_next _ _ _
  obtain ⟨q1, q2, q3⟩ := ih _ r h2 (by rw [hnext]; exact hr) hm
  rw [hnext] at q1
  refine ⟨q1, ?_, ?_⟩
  · intro a ha hne
    have hq := q2 a (by rw [hnext]; exact ha) hne
    rw [hq]
    exact delField_get_ne _ _ _ _ hne
  · intro k' v' hv'
    rcases q3 k' v' hv' with hq | hq | hq
    · by_cases hk : k' = k
      · subst hk
        rw [getField_delField_self] at hq
        cases hq
      · rw [getField_delField_ne _ _ _ _ hk] at hq
        exact Or.inl hq
    · exact Or.inr (Or.inl (List.mem_cons_of_mem _ hq))
    · obtain ⟨m, e1, e2⟩ := hq
      rw [hnext] at e2
      exact Or.inr (Or.inr ⟨m, e1, e2⟩)

theorem QConc_merge (fuel : Nat) (k : String) (a b : Nat) (rest : List (String × SVal))
    (h h3 : Heap) (r m : Nat) (h2 : Heap) (hr : r < h.next)
    (hP : heapFrameP fuel)
    (hrec : deepMergeH fuel h b a = some (h3, m))
    (ih : ∀ h' r' h2', r' < h'.next → mergeFields fuel h' r' rest = some h2' →
      QConc rest h' r' h2')
    (hm : mergeFields fuel (setField h3 r k (SVal.ref m)) r rest = some h2) :
    QConc ((k, SVal.ref a) :: rest) h r h2 := by
  obtain ⟨p1, p2, p3, _⟩ := hP h b a h3 m hrec
  have hget_r : h3.get r = h.get r := p3 r hr
  have hnext : (setField h3 r k (SVal.ref m)).next = h3.next := setField_next _ _ _ _
  have hle : h.next ≤ (setField h3 r k (SVal.ref m)).next := by
    rw [hnext]
    exact p1
  obtain ⟨q1, q2, q3⟩ := ih _ r h2 (lt_of_lt_of_le hr hle) hm
  refine ⟨le_trans hle q1, ?_, ?_⟩
  · intro a' ha' hne
    have hq := q2 a' (lt_of_lt_of_le ha' hle) hne
    rw [hq, setField_get_ne _ _ _ _ _ hne]
    exact p3 a' ha'
  · intro k' v' hv'
    rcases q3 k' v' hv' with hq | hq | hq
    · by_cases hk : k' = k
      · subst hk
        have he := getField_setField_self_inv _ _ _ _ _ hq
        subst he
        exact Or.inr (Or.inr ⟨m, rfl, p2⟩)
      · rw [getField_setField_ne _ _ _ _ _ hk] at hq
        rw [getField_congr _ _ _ _ hget_r] at hq
        exact Or.inl hq
    · exact Or.inr (Or.inl (List.mem_cons_of_mem _ hq))
    · obtain ⟨m', e1, e2⟩ := hq
      exact Or.inr (Or.inr ⟨m', e1, le_trans (le_trans p1 hnext.ge) e2⟩)

theorem heapFrameQ_of_P (fuel : Nat) (hP : heapFrameP fuel) : heapFrameQ fuel := by
  intro l
  induction l with
  | nil =>
    intro h r h2 hr hm
    simp only [mergeFields] at hm
    obtain rfl := Option.some.inj hm
    exact ⟨le_refl _, fun a _ _ => rfl, fun k v hv => Or.inl hv⟩
  | cons kv rest ih =>
    obtain ⟨k, v⟩ := kv
    intro h r h2 hr hm
    cases v with
    | null =>
      simp only [mergeFields] at hm
      exact QConc_null fuel k rest h r h2 hr ih hm
    | bool b =>
      simp only [mergeFields] at hm
      exact QConc_verbatim fuel k (SVal.bool b) rest h r h2 hr ih hm
    | num n =>
      simp only [mergeFields] at hm
      exact QConc_verbatim fuel k (SVal.num n) rest h r h2 hr ih hm
    | str s =>
      simp only [mergeFields] at hm
      exact QConc_verbatim fuel k (SVal.str s) rest h r h2 hr ih hm
    | ref a =>
      simp only [mergeFields] at hm
      split at hm <;>
        try exact QConc_verbatim fuel k (SVal.ref a) rest h r h2 hr ih hm
      split at hm <;>
        try exact QConc_verbatim fuel k (SVal.ref a) rest h r h2 hr ih hm
      split at hm <;>
        try exact QConc_verbatim fuel k (SVal.ref a) rest h r h2 hr ih hm
      split at hm
      · rename_i h3 m heq
        exact QConc_merge fuel k a _ rest h h3 r m h2 hr hP heq ih hm
      · exact Option.noConfusion hm

theorem heapFrameP_succ (fuel : Nat) (hQ : heapFrameQ fuel) : heapFrameP (fuel + 1) := by
  intro h ta sa h2 r hm
  simp only [deepMergeH] at hm
  split at hm <;> try exact Option.noConfusion hm
  rename_i tf sf hta hsa
  split at hm <;> try exact Option.noConfusion hm
  rename_i h2' hmf
  simp only [Option.some.injEq, Prod.mk.injEq] at hm
  obtain ⟨rfl, rfl⟩ := hm
  have hrlt : (Heap.alloc h (HNode.obj tf)).2 < (Heap.alloc h (HNode.obj tf)).1.next :=
    Nat.lt_succ_self _
  obtain ⟨q1, q2, q3⟩ := hQ sf _ _ h2' hrlt hmf
  refine ⟨?_, ?_, ?_, ?_⟩
  · exact le_trans (Nat.le_succ _) q1
  · exact le_refl _
  · intro a ha
    have hq := q2 a (Nat.lt_succ_of_lt ha) (Nat.ne_of_lt ha)
    rw [hq]
    exact Heap.alloc_get_ne _ _ _ (Nat.ne_of_lt ha)
  · intro k v hv
    rcases q3 k v hv with hq | hq | hq
    · rw [getField_of_get_obj _ _ _ _ (Heap.alloc_get_self _ _)] at hq
      exact Or.inl ⟨tf, hta, hq⟩
    · exact Or.inr (Or.inl ⟨sf, hsa, hq⟩)
    · obtain ⟨m, e1, e2⟩ := hq
      exact Or.inr (Or.inr ⟨m, e1, le_trans (Nat.le_succ _) e2⟩)

theorem heapFrame_all : ∀ fuel, heapFrameP fuel ∧ heapFrameQ fuel
  | 0 => by
    have hp : heapFrameP 0 := by
      intro h ta sa h2 r hm
      simp only [deepMergeH] at hm
      exact Option.noConfusion hm
    exact ⟨hp, heapFrameQ_of_P 0 hp⟩
  | fuel + 1 => by
    have hp : heapFrameP (fuel + 1) := heapFrameP_succ fuel (heapFrame_all fuel).2
    exact ⟨hp, heapFrameQ_of_P (fuel + 1) hp⟩

/-- C7: the heap-level `deepMerge` never mutates any pre-existing node —
in particular every node reachable from `target` is bit-for-bit unchanged
— and its result is a freshly allocated object; every field of the result
is either shared with the target node, taken verbatim from the source
node, or a reference to a freshly allocated (merged) node. -/
theorem claim_C7 (fuel : Nat) (h : Heap) (ta sa : Nat) (h2 : Heap) (r : Nat)
    (heq : deepMergeH fuel h ta sa = some (h2, r)) :
    h.next ≤ h2.next ∧ h.next ≤ r ∧
    (∀ a, a < h.next → h2.get a = h.get a) ∧
    (∀ k v, getField h2 r k = some v →
      (∃ tf, h.get ta = some (HNode.obj tf) ∧ getKey tf k = some v) ∨
      (∃ sf, h.get sa = some (HNode.obj sf) ∧ (k, v) ∈ sf) ∨
      (∃ m, v = SVal.ref m ∧ h.next ≤ m)) :=
  (heapFrame_all fuel).1 h ta sa h2 r heq

/-- Witness for C7: merging the object at address 1 into the object at
address 0 of a concrete two-object heap leaves both original nodes
unchanged and returns the fresh address 2. -/
theorem claim_C7_witness :
    Heap.get { store := [(0, HNode.obj [("a", SVal.num 1)]),
                         (1, HNode.obj [("b", SVal.num 2)]),
                         (2, HNode.obj [("a", SVal.num 1), ("b", SVal.num 2)])],
               next := 3 } 0 =
      Heap.get { store := [(0, HNode.obj [("a", SVal.num 1)]),
                           (1, HNode.obj [("b", SVal.num 2)])], next := 2 } 0 ∧
    (2 : Nat) ≤ 2 := by
  have heq : deepMergeH 2
      { store := [(0, HNode.obj [("a", SVal.num 1)]), (1, HNode.obj [("b", SVal.num 2)])],
        next := 2 } 0 1 =
      some ({ store := [(0, HNode.obj [("a", SVal.num 1)]),
                        (1, HNode.obj [("b", SVal.num 2)]),
                        (2, HNode.obj [("a", SVal.num 1), ("b", SVal.num 2)])],
              next := 3 }, 2) := by
    simp [deepMergeH, mergeFields, Heap.get, Heap.set, Heap.alloc, getField, setField,
      delField, getKey, setKey, eraseKey]
  exact ⟨(claim_C7 2 _ 0 1 _ 2 heq).2.2.1 0 (by simp),
         (claim_C7 2 _ 0 1 _ 2 heq).2.1⟩
